import Mathlib

/-!
Verification of the filesystem storage backend of `simple-content`
(`pkg/simplecontent/storage/fs/fs.go`).

The backend stores blobs as files under a configured base directory.  We give
a shallow embedding: the filesystem is a pair of association lists (regular
files with their byte contents, and the set of existing directories), paths
are lists of path segments (an absolute path, `[]` being the filesystem
root), and every operation of the Go backend becomes a pure function on that
state.  `filepath.Join(baseDir, objectKey)` — which lexically cleans the
joined path, resolving "." and ".." segments — is modelled by `resolveKey`.
Bytes are modelled as `Nat`, durations and Unix timestamps as `Int` counted
in seconds (so the Go default `1 * time.Hour` is `3600`).
-/

set_option autoImplicit false

namespace SimpleContent

/-- An absolute filesystem path, as its list of segments; `[]` is the root. -/
abbrev Path := List String

/-- Split a string at `'/'` characters into its segments (the segment view
used by Go's `path/filepath`); `cur` is the reversed current segment. -/
def splitSlash : List Char → List Char → List String
  | [], cur => [String.mk cur.reverse]
  | c :: rest, cur =>
    if c = '/' then String.mk cur.reverse :: splitSlash rest []
    else splitSlash rest (c :: cur)

/-- The lexical cleaning pass of Go's `filepath.Clean` applied to an absolute
path given as `acc` followed by the remaining raw segments: empty and `"."`
segments are dropped, `".."` removes the last accepted segment (and is
dropped at the root, as for absolute paths). -/
def cleanSegs (acc : Path) : List String → Path
  | [] => acc
  | s :: rest =>
    if s = "" ∨ s = "." then cleanSegs acc rest
    else if s = ".." then cleanSegs acc.dropLast rest
    else cleanSegs (acc ++ [s]) rest

/-- Model of `filepath.Join(baseDir, objectKey)` from the Go backend: the key
is split at slashes and the concatenation is cleaned.  `base` is the
configured base directory, assumed given in already-clean segment form. -/
def resolveKey (base : Path) (objectKey : String) : Path :=
  cleanSegs base (splitSlash objectKey.toList [])

/-- The filesystem state: regular files with their contents (an association
list keyed by path), and the set of existing directories.  The root `[]`
always exists implicitly and is not listed in `dirs`. -/
structure FS where
  files : List (Path × List Nat)
  dirs : List Path
deriving Repr, DecidableEq

/-- First-match lookup in the file association list. -/
def lookupF : List (Path × List Nat) → Path → Option (List Nat)
  | [], _ => none
  | e :: rest, p => if e.1 = p then some e.2 else lookupF rest p

/-- The content of the regular file at `p`, if one exists. -/
def FS.lookupFile (fs : FS) (p : Path) : Option (List Nat) :=
  lookupF fs.files p

/-- Overwrite (or create) the regular file at `p` with content `c` —
the effect of `os.Create` followed by a complete `io.Copy`. -/
def FS.setFile (fs : FS) (p : Path) (c : List Nat) : FS :=
  ⟨(p, c) :: fs.files.filter (fun e => decide (e.1 ≠ p)), fs.dirs⟩

/-- Remove the regular file at `p` (the effect of `os.Remove` on a file). -/
def FS.removeFile (fs : FS) (p : Path) : FS :=
  ⟨fs.files.filter (fun e => decide (e.1 ≠ p)), fs.dirs⟩

/-- Remove the directory `p` (the effect of `os.Remove` on an empty dir). -/
def FS.removeDir (fs : FS) (p : Path) : FS :=
  ⟨fs.files, fs.dirs.filter (fun d => decide (d ≠ p))⟩

/-- `d` has an immediate child entry (file or directory) — i.e. `os.ReadDir`
on `d` returns a non-empty listing. -/
def FS.HasChild (fs : FS) (d : Path) : Prop :=
  (∃ e ∈ fs.files, e.1.length = d.length + 1 ∧ d <+: e.1) ∨
  (∃ c ∈ fs.dirs, c.length = d.length + 1 ∧ d <+: c)

instance (fs : FS) (d : Path) : Decidable (fs.HasChild d) := by
  unfold FS.HasChild; infer_instance

/-- The errors of the backend, one constructor per distinct error the Go
code can return (identified by its `errors.New`/`fmt.Errorf` message), plus
the errors of the spec-modelled presigned signer. -/
inductive Err
  /-- "base directory is required" -/
  | baseDirRequired
  /-- "failed to create base directory" -/
  | createBaseDirFailed
  /-- "object not found" -/
  | notFound
  /-- "failed to create directory" (from `os.MkdirAll` in `Upload`) -/
  | mkdirFailed
  /-- "failed to create file" (from `os.Create` in `Upload`) -/
  | createFileFailed
  /-- "failed to delete file" (from `os.Remove` in `Delete`) -/
  | deleteFailed
  /-- "direct upload required for filesystem backend" -/
  | directUploadRequired
  /-- "direct download required for filesystem backend" -/
  | directDownloadRequired
  /-- "direct preview required for filesystem backend" -/
  | directPreviewRequired
  /-- Spec-modelled signer: `SignURLWithBase` with a non-positive ttl. -/
  | ttlNotPositive
  /-- Spec-modelled signer: signing attempted with no secret key configured. -/
  | signingNotConfigured
  /-- Spec-modelled signer: `Validate` after the expiration instant. -/
  | expiredGrant
  /-- Spec-modelled signer: `Validate` with a non-matching signature. -/
  | invalidSignature
deriving Repr, DecidableEq

/-- All non-empty prefixes of a path, shortest first. -/
def pathPrefixes (p : Path) : List Path :=
  (List.range p.length).map (fun i => p.take (i + 1))

/-- Model of `os.MkdirAll`: fails when some (non-empty) prefix of `dir` is a
regular file; otherwise creates every missing directory level of `dir`. -/
def FS.mkdirAll (fs : FS) (dir : Path) : Except Err FS :=
  if (pathPrefixes dir).any (fun q => (fs.lookupFile q).isSome) then
    .error .mkdirFailed
  else
    .ok ⟨fs.files,
      (pathPrefixes dir).foldl
        (fun acc q => if q ∈ acc then acc else q :: acc) fs.dirs⟩

/-- Modelled from the spec: the `presigned.Signer` package is not part of the
sources at hand (only `fs.go` is); per §4.1 of the specification it holds a
secret key and a default expiration.  The URL pattern option passed by the
backend (`/upload/` followed by the key) never feeds into `Sign`/`Validate`
as used from `fs.go`, which always pass the path explicitly, so it is not
carried here. -/
structure Signer where
  secretKey : String
  defaultExpiration : Int
deriving Repr, DecidableEq

/-- Modelled from the spec: HMAC-SHA256 is not re-implemented; it is modelled
as an abstract deterministic keyed MAC, injective in its rendered inputs.
Only determinism and its dependence on (key, message) matter to the claims. -/
def hmacSha256 (key msg : String) : String :=
  "hmac-sha256(" ++ key ++ "," ++ msg ++ ")"

/-- Modelled from the spec: `Sign(method, path, expiresAt)` computes a
deterministic signature over a canonical string built from the method, the
path and the Unix timestamp of the expiration, keyed by the secret. -/
def Signer.sign (s : Signer) (method path : String) (expiresAt : Int) : String :=
  hmacSha256 s.secretKey (method ++ "\n" ++ path ++ "\n" ++ toString expiresAt)

/-- Modelled from the spec: `SignURLWithBase(base, method, path, ttl)`
composes `base ++ path ++ "?signature=…&expires=…"` using `Sign` with
`expiresAt = now + ttl`; it fails if `ttl ≤ 0` or if no secret key is
configured.  `now` (the current Unix time) is passed explicitly. -/
def Signer.signURLWithBase (s : Signer) (base method path : String)
    (ttl now : Int) : Except Err String :=
  if ttl ≤ 0 then .error .ttlNotPositive
  else if s.secretKey = "" then .error .signingNotConfigured
  else
    .ok (base ++ path ++ "?signature=" ++ s.sign method path (now + ttl)
      ++ "&expires=" ++ toString (now + ttl))

/-- Modelled from the spec: `Validate(method, path, signature, expiresAt)`
fails with the expired-grant error when `now > expiresAt`, with the
invalid-signature error when the recomputed signature differs from the
presented one, and succeeds otherwise. -/
def Signer.validate (s : Signer) (method path signature : String)
    (expiresAt now : Int) : Except Err Unit :=
  if expiresAt < now then .error .expiredGrant
  else if s.sign method path expiresAt ≠ signature then .error .invalidSignature
  else .ok ()

/-- The filesystem backend (`Backend` in `fs.go`): base directory, optional
URL prefix, optional signer, default presign expiration.  The mutex only
serializes Go-level access and has no observable effect in this sequential
model. -/
structure Backend where
  baseDir : Path
  urlPrefix : String
  signer : Option Signer
  presignExpires : Int
deriving Repr, DecidableEq

/-- `Config` from `fs.go`.  The base directory is given in clean segment
form; `[]` models the empty string. -/
structure Config where
  BaseDir : Path
  URLPrefix : String
  SignatureSecretKey : String
  PresignExpires : Int
deriving Repr, DecidableEq

/-- `New` from `fs.go`: rejects an empty base directory, creates it with
`os.MkdirAll` (failure wrapped as a configuration error), defaults the
presign expiration to 1 hour (3600 s) when the configured one is zero, and
installs a signer exactly when a secret key is configured. -/
def New (config : Config) (fs : FS) : Except Err (Backend × FS) :=
  if config.BaseDir = [] then .error .baseDirRequired
  else
    match fs.mkdirAll config.BaseDir with
    | .error _ => .error .createBaseDirFailed
    | .ok fs1 =>
      let presignExpires : Int :=
        if config.PresignExpires = 0 then 3600 else config.PresignExpires
      let signer : Option Signer :=
        if config.SignatureSecretKey = "" then none
        else some ⟨config.SignatureSecretKey, presignExpires⟩
      .ok (⟨config.BaseDir, config.URLPrefix, signer, presignExpires⟩, fs1)

/-- The metadata view returned by `GetObjectMeta`: the key and the stat size
(`some (content length)` for a regular file; `none` abstracts the
platform-dependent stat size of a directory).  The sniffed content type, the
modification time and the attribute map are not consulted by any claim and
are omitted from the model. -/
structure ObjectMeta where
  key : String
  size : Option Nat
deriving Repr, DecidableEq

/-- `GetObjectMeta` from `fs.go`: stats `filepath.Join(baseDir, key)`,
failing with the object-not-found error when nothing exists there. -/
def Backend.GetObjectMeta (b : Backend) (objectKey : String) (fs : FS) :
    Except Err ObjectMeta :=
  let filePath := resolveKey b.baseDir objectKey
  match fs.lookupFile filePath with
  | some c => .ok ⟨objectKey, some c.length⟩
  | none =>
    if filePath = [] ∨ filePath ∈ fs.dirs then .ok ⟨objectKey, none⟩
    else .error .notFound

/-- `GetUploadURL` from `fs.go`.  `now` is the current Unix time consumed by
the (spec-modelled) signer. -/
def Backend.GetUploadURL (b : Backend) (objectKey : String) (now : Int) :
    Except Err String :=
  if b.urlPrefix = "" then .error .directUploadRequired
  else
    let path := "/upload/" ++ objectKey
    match b.signer with
    | some s => s.signURLWithBase b.urlPrefix "PUT" path b.presignExpires now
    | none => .ok (b.urlPrefix ++ path)

/-- `Upload` from `fs.go`: `os.MkdirAll` on the parent of the resolved path,
then `os.Create` (which truncates an existing file, and fails on a directory
or on the root) followed by a full `io.Copy` of the payload. -/
def Backend.Upload (b : Backend) (objectKey : String) (content : List Nat)
    (fs : FS) : Except Err FS :=
  let filePath := resolveKey b.baseDir objectKey
  match fs.mkdirAll filePath.dropLast with
  | .error _ => .error .mkdirFailed
  | .ok fs1 =>
    if filePath = [] ∨ filePath ∈ fs1.dirs then .error .createFileFailed
    else .ok (fs1.setFile filePath content)

/-- The auxiliary upload parameters (`simplecontent.UploadParams`).  Modelled
from the spec: the type itself is not in the sources at hand; per §4.2 it
carries the target key, a declared content type and extra attributes. -/
structure UploadParams where
  objectKey : String
  mimeType : String
  metadata : List (String × String)
deriving Repr, DecidableEq

/-- `UploadWithParams` from `fs.go`: delegates to `Upload` with
`params.ObjectKey`; the MIME type is not stored separately. -/
def Backend.UploadWithParams (b : Backend) (content : List Nat)
    (params : UploadParams) (fs : FS) : Except Err FS :=
  b.Upload params.objectKey content fs

/-- `GetDownloadURL` from `fs.go`: unsigned; appends a `filename` query
parameter when a download filename is provided. -/
def Backend.GetDownloadURL (b : Backend) (objectKey downloadFilename : String) :
    Except Err String :=
  if b.urlPrefix = "" then .error .directDownloadRequired
  else if downloadFilename ≠ "" then
    .ok (b.urlPrefix ++ "/download/" ++ objectKey ++ "?filename=" ++ downloadFilename)
  else .ok (b.urlPrefix ++ "/download/" ++ objectKey)

/-- `GetPreviewURL` from `fs.go`: unsigned. -/
def Backend.GetPreviewURL (b : Backend) (objectKey : String) :
    Except Err String :=
  if b.urlPrefix = "" then .error .directPreviewRequired
  else .ok (b.urlPrefix ++ "/preview/" ++ objectKey)

/-- The result of `Download`: `os.Open` yields the byte stream of a regular
file, but also succeeds on a directory (returning a handle whose reads
fail); it fails with the object-not-found error only when nothing exists at
the resolved path. -/
inductive DLResult
  | fileData (content : List Nat)
  | dirHandle
deriving Repr, DecidableEq

/-- `Download` from `fs.go`. -/
def Backend.Download (b : Backend) (objectKey : String) (fs : FS) :
    Except Err DLResult :=
  let filePath := resolveKey b.baseDir objectKey
  match fs.lookupFile filePath with
  | some c => .ok (.fileData c)
  | none =>
    if filePath = [] ∨ filePath ∈ fs.dirs then .ok .dirHandle
    else .error .notFound

/-- The recursion of `cleanupEmptyDirectories`, made structural on a fuel
that bounds the number of remaining directory levels (each step moves to the
parent, so `dir.length` levels suffice — the bound the spec itself notes).
When the fuel is exhausted `dir` is necessarily the root, where the Go walk
also stops (`os.Remove` on the root fails). -/
def cleanupAux (base : Path) : Nat → FS → Path → FS
  | 0, fs, _ => fs
  | fuel + 1, fs, dir =>
    if dir = base then fs
    else if dir = [] then fs
    else if dir ∈ fs.dirs ∧ ¬fs.HasChild dir then
      cleanupAux base fuel (fs.removeDir dir) dir.dropLast
    else fs

/-- `cleanupEmptyDirectories` from `fs.go`: starting from the parent of the
deleted file, keeps removing the directory while it is not the base
directory, exists and is empty, then moves to its parent. -/
def cleanupEmptyDirectories (base : Path) (fs : FS) (dir : Path) : FS :=
  cleanupAux base dir.length fs dir

/-- `Delete` from `fs.go`: `os.Stat` (object-not-found when nothing exists at
the resolved path), `os.Remove` (removes a file, or an empty directory;
fails on a non-empty directory or on the root), then the best-effort
empty-directory cleanup walk from the parent. -/
def Backend.Delete (b : Backend) (objectKey : String) (fs : FS) :
    Except Err FS :=
  let filePath := resolveKey b.baseDir objectKey
  if (fs.lookupFile filePath).isNone ∧ filePath ∉ fs.dirs ∧ filePath ≠ [] then
    .error .notFound
  else
    match fs.lookupFile filePath with
    | some _ =>
      .ok (cleanupEmptyDirectories b.baseDir (fs.removeFile filePath)
        filePath.dropLast)
    | none =>
      if filePath = [] ∨ fs.HasChild filePath then .error .deleteFailed
      else
        .ok (cleanupEmptyDirectories b.baseDir (fs.removeDir filePath)
          filePath.dropLast)

/-- `ValidateUploadSignature` from `fs.go`: with no signer configured it
always succeeds (open mode); otherwise it delegates to the signer's
`Validate` for method `PUT` and path `/upload/` ++ key. -/
def Backend.ValidateUploadSignature (b : Backend)
    (objectKey signature : String) (expiresAt now : Int) : Except Err Unit :=
  match b.signer with
  | none => .ok ()
  | some s => s.validate "PUT" ("/upload/" ++ objectKey) signature expiresAt now

/-- Well-formedness of a filesystem state — the invariants any state of a
real filesystem satisfies: the root is not a regular file, no path is both a
file and a directory, and every strict non-empty prefix of an existing entry
is an existing directory. -/
def FS.WF (fs : FS) : Prop :=
  (∀ e ∈ fs.files, e.1 ≠ [] ∧ e.1 ∉ fs.dirs ∧
    ∀ q ∈ pathPrefixes e.1, q = e.1 ∨ q ∈ fs.dirs) ∧
  (∀ d ∈ fs.dirs, d ≠ [] ∧ ∀ q ∈ pathPrefixes d, q = d ∨ q ∈ fs.dirs)

instance (fs : FS) : Decidable fs.WF := by
  unfold FS.WF; infer_instance

/-- The directory half of `FS.WF`, as an unbounded statement usable in the
cleanup-walk induction. -/
def DirClosure (fs : FS) : Prop :=
  ∀ d ∈ fs.dirs, d ≠ [] ∧ ∀ q, q <+: d → q ≠ [] → q ≠ d → q ∈ fs.dirs

instance {ε α : Type} [DecidableEq ε] [DecidableEq α] : DecidableEq (Except ε α) :=
  fun x y =>
    match x, y with
    | .error e, .error f =>
      if h : e = f then .isTrue (congrArg Except.error h)
      else .isFalse (fun hc => h (Except.error.inj hc))
    | .error _, .ok _ => .isFalse (fun hc => Except.noConfusion hc)
    | .ok _, .error _ => .isFalse (fun hc => Except.noConfusion hc)
    | .ok a, .ok b =>
      if h : a = b then .isTrue (congrArg Except.ok h)
      else .isFalse (fun hc => h (Except.ok.inj hc))

/-! ## Basic lemmas about paths and the filesystem state -/

theorem mem_pathPrefixes {q p : Path} :
    q ∈ pathPrefixes p ↔ q ≠ [] ∧ q <+: p := by
  unfold pathPrefixes
  simp only [List.mem_map, List.mem_range]
  constructor
  · rintro ⟨i, hi, rfl⟩
    refine ⟨?_, List.take_prefix _ _⟩
    intro hq
    have hlen := congrArg List.length hq
    rw [List.length_take] at hlen
    simp only [List.length_nil] at hlen
    omega
  · rintro ⟨hne, hpre⟩
    have h2 : 0 < q.length := List.length_pos.mpr hne
    have h1 := hpre.length_le
    refine ⟨q.length - 1, by omega, ?_⟩
    have hq : q.length - 1 + 1 = q.length := by omega
    rw [hq]
    exact (List.prefix_iff_eq_take.mp hpre).symm

theorem prefix_length_lt {q l : Path} (h : q <+: l) (hne : q ≠ l) :
    q.length < l.length := by
  rcases Nat.lt_or_ge q.length l.length with h1 | h1
  · exact h1
  · exact absurd (h.eq_of_length (le_antisymm h.length_le h1)) hne

theorem prefix_dropLast_of_ne {q l : Path} (h : q <+: l) (hne : q ≠ l) :
    q <+: l.dropLast := by
  have hlt := prefix_length_lt h hne
  rw [List.prefix_iff_eq_take] at h ⊢
  rw [List.dropLast_eq_take, List.take_take]
  have hmin : q.length ⊓ (l.length - 1) = q.length := by omega
  rw [hmin, ← h]

theorem prefix_of_prefix_dropLast {q l : Path} (h : q <+: l) :
    q = l ∨ q <+: l.dropLast := by
  by_cases hq : q = l
  · exact Or.inl hq
  · exact Or.inr (prefix_dropLast_of_ne h hq)

theorem dropLast_prefix_self (l : Path) : l.dropLast <+: l := by
  rw [List.dropLast_eq_take]; exact List.take_prefix _ _

/-- The immediate child of `d` along the path to `dir`, when `d` is a strict
prefix of `dir`. -/
theorem child_toward {d dir : Path} (h : d <+: dir) (hne : d ≠ dir) :
    d <+: dir.take (d.length + 1) ∧
    (dir.take (d.length + 1)).length = d.length + 1 ∧
    dir.take (d.length + 1) <+: dir := by
  have hlt := prefix_length_lt h hne
  refine ⟨?_, ?_, List.take_prefix _ _⟩
  · exact List.prefix_of_prefix_length_le h (List.take_prefix _ _)
      (by rw [List.length_take]; omega)
  · rw [List.length_take]; omega

theorem prefix_antisymm {a b : Path} (h1 : a <+: b) (h2 : b <+: a) : a = b :=
  h1.eq_of_length (le_antisymm h1.length_le h2.length_le)

theorem lookupF_cons_self (l : List (Path × List Nat)) (p : Path) (c : List Nat) :
    lookupF ((p, c) :: l) p = some c := by
  simp [lookupF]

theorem lookupF_mem {l : List (Path × List Nat)} {p : Path} {c : List Nat}
    (h : lookupF l p = some c) : (p, c) ∈ l := by
  induction l with
  | nil => simp [lookupF] at h
  | cons e rest ih =>
    rw [lookupF] at h
    split at h
    · obtain ⟨p', c'⟩ := e
      simp_all
    · exact List.mem_cons_of_mem _ (ih h)

theorem lookupF_filter_ne (l : List (Path × List Nat)) (p : Path) :
    lookupF (l.filter (fun e => decide (e.1 ≠ p))) p = none := by
  induction l with
  | nil => rfl
  | cons e rest ih =>
    by_cases he : e.1 = p
    · simpa [List.filter_cons, he] using ih
    · simpa [List.filter_cons, he, lookupF] using ih

theorem mem_removeDir {fs : FS} {p d : Path} :
    d ∈ (fs.removeDir p).dirs ↔ d ∈ fs.dirs ∧ d ≠ p := by
  simp [FS.removeDir, List.mem_filter]

theorem lookupFile_removeFile_self (fs : FS) (p : Path) :
    (fs.removeFile p).lookupFile p = none :=
  lookupF_filter_ne _ _

theorem lookupFile_setFile_self (fs : FS) (p : Path) (c : List Nat) :
    (fs.setFile p c).lookupFile p = some c :=
  lookupF_cons_self _ _ _

/-- Monotonicity of dir-listing non-emptiness: a state with the same files
and fewer directories has fewer children. -/
theorem FS.HasChild.mono {fs1 fs2 : FS} {d : Path}
    (hf : fs2.files = fs1.files) (hd : ∀ x ∈ fs2.dirs, x ∈ fs1.dirs)
    (h : fs2.HasChild d) : fs1.HasChild d := by
  rcases h with ⟨e, he, hl, hp⟩ | ⟨c, hc, hl, hp⟩
  · exact Or.inl ⟨e, hf ▸ he, hl, hp⟩
  · exact Or.inr ⟨c, hd c hc, hl, hp⟩

theorem FS.WF.dirClosure {fs : FS} (h : fs.WF) : DirClosure fs := by
  intro d hd
  obtain ⟨h1, h2⟩ := h.2 d hd
  refine ⟨h1, fun q hq hq0 hqd => ?_⟩
  rcases h2 q (mem_pathPrefixes.mpr ⟨hq0, hq⟩) with h | h
  · exact absurd h hqd
  · exact h

/-- Removing an empty directory preserves directory closure. -/
theorem DirClosure.removeDir {fs : FS} {e : Path} (hcl : DirClosure fs)
    (hemp : ¬fs.HasChild e) : DirClosure (fs.removeDir e) := by
  intro d hd
  rw [mem_removeDir] at hd
  obtain ⟨hd, hne⟩ := hd
  obtain ⟨h1, h2⟩ := hcl d hd
  refine ⟨h1, fun q hq hq0 hqd => ?_⟩
  rw [mem_removeDir]
  refine ⟨h2 q hq hq0 hqd, ?_⟩
  rintro rfl
  obtain ⟨hc1, hc2, hc3⟩ := child_toward hq hqd
  have hcmem : d.take (q.length + 1) ∈ fs.dirs := by
    by_cases hcd : d.take (q.length + 1) = d
    · rw [hcd]; exact hd
    · exact h2 _ hc3 (by intro h0; rw [h0] at hc2; simp at hc2) hcd
  exact hemp (Or.inr ⟨_, hcmem, hc2, hc1⟩)

/-! ## Lemmas about the empty-directory cleanup walk -/

/-- The cleanup walk never touches regular files. -/
theorem cleanupAux_files_eq (base : Path) :
    ∀ (fuel : Nat) (fs : FS) (dir : Path),
    (cleanupAux base fuel fs dir).files = fs.files := by
  intro fuel
  induction fuel with
  | zero => intro fs dir; rfl
  | succ n ih =>
    intro fs dir
    rw [cleanupAux]
    split
    · rfl
    split
    · rfl
    split
    · rw [ih]; rfl
    · rfl

/-- The cleanup walk only removes directories. -/
theorem cleanupAux_dirs_subset (base : Path) :
    ∀ (fuel : Nat) (fs : FS) (dir : Path),
    ∀ d ∈ (cleanupAux base fuel fs dir).dirs, d ∈ fs.dirs := by
  intro fuel
  induction fuel with
  | zero => intro fs dir d hd; exact hd
  | succ n ih =>
    intro fs dir d
    rw [cleanupAux]
    split
    · exact fun hd => hd
    split
    · exact fun hd => hd
    split
    · intro hd
      exact (mem_removeDir.mp (ih _ _ d hd)).1
    · exact fun hd => hd

/-- The cleanup walk never removes the base directory. -/
theorem cleanupAux_keeps_base (base : Path) :
    ∀ (fuel : Nat) (fs : FS) (dir : Path), base ∈ fs.dirs →
    base ∈ (cleanupAux base fuel fs dir).dirs := by
  intro fuel
  induction fuel with
  | zero => intro fs dir h; exact h
  | succ n ih =>
    intro fs dir h
    rw [cleanupAux]
    split
    · exact h
    split
    · exact h
    split
    · next h1 _ _ =>
      exact ih _ _ (mem_removeDir.mpr ⟨h, fun hc => h1 hc.symm⟩)
    · exact h

/-- A directory that is non-empty after the cleanup walk survives it. -/
theorem cleanupAux_keeps_nonempty (base : Path) :
    ∀ (fuel : Nat) (fs : FS) (dir : Path),
    ∀ d ∈ fs.dirs, (cleanupAux base fuel fs dir).HasChild d →
      d ∈ (cleanupAux base fuel fs dir).dirs := by
  intro fuel
  induction fuel with
  | zero => intro fs dir d hd _; exact hd
  | succ n ih =>
    intro fs dir d hd
    rw [cleanupAux]
    split
    · exact fun _ => hd
    split
    · exact fun _ => hd
    split
    · next hcond =>
      intro hchild
      refine ih _ _ d ?_ hchild
      rw [mem_removeDir]
      refine ⟨hd, ?_⟩
      rintro rfl
      -- `d` was empty when it was removed, so it cannot have a child later
      refine hcond.2 (hchild.mono ?_ ?_)
      · rw [cleanupAux_files_eq]; rfl
      · intro x hx
        exact (mem_removeDir.mp (cleanupAux_dirs_subset _ _ _ _ x hx)).1
    · exact fun _ => hd

/-- Main walk lemma: after the cleanup walk starting at `dir` (with enough
fuel), every directory on the walk chain strictly between the base and the
start that survived is non-empty. -/
theorem cleanupAux_survivors_nonempty (base : Path) :
    ∀ (fuel : Nat) (fs : FS) (dir : Path), dir.length ≤ fuel →
    DirClosure fs → (dir ∈ fs.dirs ∨ dir = base ∨ dir = []) →
    ∀ d, d <+: dir → base <+: d → d ≠ base →
      d ∈ (cleanupAux base fuel fs dir).dirs →
      (cleanupAux base fuel fs dir).HasChild d := by
  intro fuel
  induction fuel with
  | zero =>
    intro fs dir hfuel _ _ d hd1 hd2 hd3 _
    have hdir : dir = [] := List.length_eq_zero.mp (Nat.le_zero.mp hfuel)
    rw [hdir] at hd1
    have hd0 : d = [] := List.prefix_nil.mp hd1
    rw [hd0] at hd2
    exact absurd (hd0.trans (List.prefix_nil.mp hd2).symm) hd3
  | succ n ih =>
    intro fs dir hfuel hcl hinv d hd1 hd2 hd3
    rw [cleanupAux]
    split
    · next h1 =>
      intro _
      rw [h1] at hd1
      exact absurd (prefix_antisymm hd2 hd1) (Ne.symm hd3)
    split
    · next h2 =>
      intro _
      rw [h2] at hd1
      have hd0 : d = [] := List.prefix_nil.mp hd1
      rw [hd0] at hd2
      exact absurd (hd0.trans (List.prefix_nil.mp hd2).symm) hd3
    split
    · next h1 h2 h3 =>
      have hmem : dir ∈ fs.dirs := h3.1
      have hlen : 0 < dir.length := List.length_pos.mpr h2
      have hfuel' : dir.dropLast.length ≤ n := by
        rw [List.length_dropLast]; omega
      have hinv' : dir.dropLast ∈ (fs.removeDir dir).dirs ∨
          dir.dropLast = base ∨ dir.dropLast = [] := by
        by_cases hb : dir.dropLast = base
        · exact Or.inr (Or.inl hb)
        by_cases h0 : dir.dropLast = []
        · exact Or.inr (Or.inr h0)
        left
        rw [mem_removeDir]
        have hne : dir.dropLast ≠ dir := by
          intro hc
          have := congrArg List.length hc
          rw [List.length_dropLast] at this
          omega
        exact ⟨(hcl dir hmem).2 _ (dropLast_prefix_self dir) h0 hne, hne⟩
      intro hd4
      rcases prefix_of_prefix_dropLast hd1 with rfl | hd1'
      · -- `d = dir` was removed and can never reappear
        exact absurd (mem_removeDir.mp (cleanupAux_dirs_subset _ _ _ _ _ hd4)).2
          (fun hc => hc rfl)
      · exact ih _ _ hfuel' (hcl.removeDir h3.2) hinv' d hd1' hd2 hd3 hd4
    · next h1 h2 h3 =>
      have hmem : dir ∈ fs.dirs := by
        rcases hinv with h | h | h
        · exact h
        · exact absurd h h1
        · exact absurd h h2
      have hchild : fs.HasChild dir := by
        by_contra hc
        exact h3 ⟨hmem, hc⟩
      intro hd4
      by_cases hdd : d = dir
      · rw [hdd]; exact hchild
      · obtain ⟨hc1, hc2, hc3⟩ := child_toward hd1 hdd
        have hcne : dir.take (d.length + 1) ≠ [] := by
          intro h0; rw [h0] at hc2; simp at hc2
        have hcmem : dir.take (d.length + 1) ∈ fs.dirs := by
          by_cases hcd : dir.take (d.length + 1) = dir
          · rw [hcd]; exact hmem
          · exact (hcl dir hmem).2 _ hc3 hcne hcd
        exact Or.inr ⟨_, hcmem, hc2, hc1⟩

/-- `cleanupEmptyDirectories` versions of the walk lemmas. -/
theorem cleanup_files_eq (base : Path) (fs : FS) (dir : Path) :
    (cleanupEmptyDirectories base fs dir).files = fs.files :=
  cleanupAux_files_eq base _ fs dir

theorem cleanup_dirs_subset (base : Path) (fs : FS) (dir : Path) :
    ∀ d ∈ (cleanupEmptyDirectories base fs dir).dirs, d ∈ fs.dirs :=
  cleanupAux_dirs_subset base _ fs dir

theorem cleanup_keeps_base (base : Path) (fs : FS) (dir : Path)
    (h : base ∈ fs.dirs) :
    base ∈ (cleanupEmptyDirectories base fs dir).dirs :=
  cleanupAux_keeps_base base _ fs dir h

theorem cleanup_keeps_nonempty (base : Path) (fs : FS) (dir : Path) :
    ∀ d ∈ fs.dirs, (cleanupEmptyDirectories base fs dir).HasChild d →
      d ∈ (cleanupEmptyDirectories base fs dir).dirs :=
  cleanupAux_keeps_nonempty base _ fs dir

theorem cleanup_survivors_nonempty (base : Path) (fs : FS) (dir : Path)
    (hcl : DirClosure fs)
    (hinv : dir ∈ fs.dirs ∨ dir = base ∨ dir = []) :
    ∀ d, d <+: dir → base <+: d → d ≠ base →
      d ∈ (cleanupEmptyDirectories base fs dir).dirs →
      (cleanupEmptyDirectories base fs dir).HasChild d :=
  cleanupAux_survivors_nonempty base _ fs dir (Nat.le_refl _) hcl hinv

/-! ## Read operations on an absent path -/

theorem download_notFound {b : Backend} {fs : FS} {objectKey : String}
    (h1 : fs.lookupFile (resolveKey b.baseDir objectKey) = none)
    (h2 : resolveKey b.baseDir objectKey ∉ fs.dirs)
    (h3 : resolveKey b.baseDir objectKey ≠ []) :
    b.Download objectKey fs = .error .notFound := by
  simp only [Backend.Download, h1]
  rw [if_neg]
  push_neg
  exact ⟨h3, h2⟩

theorem getObjectMeta_notFound {b : Backend} {fs : FS} {objectKey : String}
    (h1 : fs.lookupFile (resolveKey b.baseDir objectKey) = none)
    (h2 : resolveKey b.baseDir objectKey ∉ fs.dirs)
    (h3 : resolveKey b.baseDir objectKey ≠ []) :
    b.GetObjectMeta objectKey fs = .error .notFound := by
  simp only [Backend.GetObjectMeta, h1]
  rw [if_neg]
  push_neg
  exact ⟨h3, h2⟩

/-! ## The claims -/

/-- Claim C5: for a backend constructed (by `New`) without a secret key, no
signer is configured and `ValidateUploadSignature` returns success for every
combination of key, signature string and expiration value — including empty
strings and `expiresAt = 0`, which are instances of the quantifiers. -/
theorem validate_open_mode (cfg : Config) (fs : FS) (b : Backend) (fs1 : FS)
    (hsk : cfg.SignatureSecretKey = "") (hnew : New cfg fs = .ok (b, fs1))
    (objectKey sig : String) (expiresAt now : Int) :
    b.ValidateUploadSignature objectKey sig expiresAt now = .ok () := by
  have hsigner : b.signer = none := by
    simp only [New, hsk] at hnew
    split at hnew
    · simp at hnew
    · split at hnew
      · simp at hnew
      · simp only [Except.ok.injEq, Prod.mk.injEq] at hnew
        rw [← hnew.1]
        simp
  simp [Backend.ValidateUploadSignature, hsigner]

/-- Claim C5 witness: the theorem applied to a concrete open-mode backend,
checked at the empty-string/zero-expiration inputs singled out by the claim. -/
theorem validate_open_mode_witness :
    (⟨["w5"], "", "", 0⟩ : Config).SignatureSecretKey = "" ∧
    New ⟨["w5"], "", "", 0⟩ ⟨[], []⟩ = .ok (⟨["w5"], "", none, 3600⟩, ⟨[], [["w5"]]⟩) ∧
    (⟨["w5"], "", none, 3600⟩ : Backend).ValidateUploadSignature "" "" 0 1700000000 = .ok () :=
  ⟨rfl, by decide,
    validate_open_mode ⟨["w5"], "", "", 0⟩ ⟨[], []⟩ ⟨["w5"], "", none, 3600⟩
      ⟨[], [["w5"]]⟩ rfl (by decide) "" "" 0 1700000000⟩

/-- Claim C6: with a URL prefix configured, `GetUploadURL` returns exactly
the signer's signed URL for method `PUT` and path `/upload/` ++ key with the
backend's default presign expiration whenever a signer is configured —
concretely `prefix ++ /upload/key ++ ?signature=…&expires=…` when that
expiration is positive (the spec-modelled signer rejects other ttls) — and
the unsigned `prefix ++ /upload/key` when no signer is configured. -/
theorem getUploadURL_signed_form (b : Backend) (s : Signer)
    (objectKey : String) (now : Int) (hpfx : b.urlPrefix ≠ "") :
    (b.signer = some s →
      b.GetUploadURL objectKey now =
        s.signURLWithBase b.urlPrefix "PUT" ("/upload/" ++ objectKey)
          b.presignExpires now ∧
      (0 < b.presignExpires → s.secretKey ≠ "" →
        b.GetUploadURL objectKey now =
          .ok (b.urlPrefix ++ ("/upload/" ++ objectKey) ++ "?signature=" ++
            s.sign "PUT" ("/upload/" ++ objectKey) (now + b.presignExpires) ++
            "&expires=" ++ toString (now + b.presignExpires)))) ∧
    (b.signer = none →
      b.GetUploadURL objectKey now =
        .ok (b.urlPrefix ++ ("/upload/" ++ objectKey))) := by
  refine ⟨fun hs => ⟨?_, fun hpos hsk => ?_⟩, fun hs => ?_⟩
  · simp [Backend.GetUploadURL, hpfx, hs]
  · simp [Backend.GetUploadURL, hpfx, hs, Signer.signURLWithBase,
      not_le.mpr hpos, hsk]
  · simp [Backend.GetUploadURL, hpfx, hs]

/-- Claim C6 witness: the theorem applied to a concrete backend with both a
prefix and a signer, and to one with a prefix but no signer. -/
theorem getUploadURL_signed_form_witness :
    ((⟨["w6"], "http://localhost", some ⟨"s3cr3t", 300⟩, 300⟩ : Backend).GetUploadURL
        "k.txt" 1000 =
      .ok ("http://localhost" ++ ("/upload/" ++ "k.txt") ++ "?signature=" ++
        Signer.sign ⟨"s3cr3t", 300⟩ "PUT" ("/upload/" ++ "k.txt") (1000 + 300) ++
        "&expires=" ++ toString (1000 + (300 : Int)))) ∧
    ((⟨["w6"], "http://localhost", none, 300⟩ : Backend).GetUploadURL "k.txt" 1000 =
      .ok ("http://localhost" ++ ("/upload/" ++ "k.txt"))) :=
  ⟨((getUploadURL_signed_form ⟨["w6"], "http://localhost", some ⟨"s3cr3t", 300⟩, 300⟩
      ⟨"s3cr3t", 300⟩ "k.txt" 1000 (by decide)).1 rfl).2 (by decide) (by decide),
   (getUploadURL_signed_form ⟨["w6"], "http://localhost", none, 300⟩
      ⟨"s3cr3t", 300⟩ "k.txt" 1000 (by decide)).2 rfl⟩

/-- Claim C7: with no URL prefix configured, each of `GetUploadURL`,
`GetDownloadURL` and `GetPreviewURL` fails with its direct-transfer-required
error and returns no URL, for every key and download filename. -/
theorem no_prefix_direct_transfer_required (b : Backend)
    (objectKey downloadFilename : String) (now : Int)
    (hpfx : b.urlPrefix = "") :
    b.GetUploadURL objectKey now = .error .directUploadRequired ∧
    b.GetDownloadURL objectKey downloadFilename = .error .directDownloadRequired ∧
    b.GetPreviewURL objectKey = .error .directPreviewRequired := by
  refine ⟨?_, ?_, ?_⟩ <;>
    simp [Backend.GetUploadURL, Backend.GetDownloadURL, Backend.GetPreviewURL, hpfx]

/-- Claim C7 witness: the theorem applied to a concrete prefix-less backend. -/
theorem no_prefix_direct_transfer_required_witness :
    (⟨["w7"], "", none, 3600⟩ : Backend).GetUploadURL "k" 5 = .error .directUploadRequired ∧
    (⟨["w7"], "", none, 3600⟩ : Backend).GetDownloadURL "k" "f.txt" = .error .directDownloadRequired ∧
    (⟨["w7"], "", none, 3600⟩ : Backend).GetPreviewURL "k" = .error .directPreviewRequired :=
  no_prefix_direct_transfer_required ⟨["w7"], "", none, 3600⟩ "k" "f.txt" 5 rfl

/-- Claim C8: construction fails with the configuration errors when the base
directory is empty, or when it cannot be created; otherwise it succeeds, and
a zero configured expiration defaults the presign expiration to 1 hour
(3600 s). -/
theorem new_config_validation (cfg : Config) (fs : FS) :
    (cfg.BaseDir = [] → New cfg fs = .error .baseDirRequired) ∧
    (∀ e, cfg.BaseDir ≠ [] → fs.mkdirAll cfg.BaseDir = .error e →
      New cfg fs = .error .createBaseDirFailed) ∧
    (∀ fs1, cfg.BaseDir ≠ [] → fs.mkdirAll cfg.BaseDir = .ok fs1 →
      ∃ b, New cfg fs = .ok (b, fs1) ∧
        (cfg.PresignExpires = 0 → b.presignExpires = 3600)) := by
  refine ⟨fun h0 => by simp [New, h0], fun e hne hmk => by simp [New, hne, hmk],
    fun fs1 hne hmk => ?_⟩
  have hok : New cfg fs =
      .ok (⟨cfg.BaseDir, cfg.URLPrefix,
        (if cfg.SignatureSecretKey = "" then none
          else some ⟨cfg.SignatureSecretKey,
            if cfg.PresignExpires = 0 then 3600 else cfg.PresignExpires⟩),
        if cfg.PresignExpires = 0 then 3600 else cfg.PresignExpires⟩, fs1) := by
    simp [New, hne, hmk]
  exact ⟨_, hok, fun h0 => by simp [h0]⟩

/-- Claim C8 witness: the theorem applied to a concrete configuration —
empty base directory, base directory blocked by an existing file, and a
successful construction with zero (defaulted) expiration. -/
theorem new_config_validation_witness :
    New ⟨[], "", "", 0⟩ ⟨[], []⟩ = .error .baseDirRequired ∧
    New ⟨["w8"], "", "", 0⟩ ⟨[(["w8"], [1])], []⟩ = .error .createBaseDirFailed ∧
    ∃ b, New ⟨["w8"], "", "", 0⟩ ⟨[], []⟩ = .ok (b, ⟨[], [["w8"]]⟩) ∧
      b.presignExpires = 3600 :=
  ⟨(new_config_validation ⟨[], "", "", 0⟩ ⟨[], []⟩).1 rfl,
   (new_config_validation ⟨["w8"], "", "", 0⟩ ⟨[(["w8"], [1])], []⟩).2.1
     .mkdirFailed (by decide) (by decide),
   (let h := (new_config_validation ⟨["w8"], "", "", 0⟩ ⟨[], []⟩).2.2
      ⟨[], [["w8"]]⟩ (by decide) (by decide)
    ⟨h.choose, h.choose_spec.1, h.choose_spec.2 rfl⟩)⟩

/-- Claim C9: `UploadWithParams` behaves exactly as `Upload` at the params'
object key; the declared content type and extra attributes have no effect
(two params records agreeing on the key give identical results), and no
extra key validation is performed. -/
theorem uploadWithParams_is_upload (b : Backend) (content : List Nat)
    (params params2 : UploadParams) (fs : FS)
    (hkey : params.objectKey = params2.objectKey) :
    b.UploadWithParams content params fs = b.Upload params.objectKey content fs ∧
    b.UploadWithParams content params fs = b.UploadWithParams content params2 fs := by
  constructor
  · rfl
  · simp only [Backend.UploadWithParams, hkey]

/-- Claim C9 witness: the theorem applied to two concrete params records
that differ in MIME type and attributes but share the object key. -/
theorem uploadWithParams_is_upload_witness :
    (⟨["w9"], "", none, 3600⟩ : Backend).UploadWithParams [4, 2]
        ⟨"a/b", "text/plain", [("x", "1")]⟩ ⟨[], [["w9"]]⟩ =
      (⟨["w9"], "", none, 3600⟩ : Backend).Upload "a/b" [4, 2] ⟨[], [["w9"]]⟩ ∧
    (⟨["w9"], "", none, 3600⟩ : Backend).UploadWithParams [4, 2]
        ⟨"a/b", "text/plain", [("x", "1")]⟩ ⟨[], [["w9"]]⟩ =
      (⟨["w9"], "", none, 3600⟩ : Backend).UploadWithParams [4, 2]
        ⟨"a/b", "application/pdf", []⟩ ⟨[], [["w9"]]⟩ :=
  uploadWithParams_is_upload ⟨["w9"], "", none, 3600⟩ [4, 2]
    ⟨"a/b", "text/plain", [("x", "1")]⟩ ⟨"a/b", "application/pdf", []⟩
    ⟨[], [["w9"]]⟩ rfl

/-- Claim C10: for a backend built by `New` with a URL prefix configured
(and a non-negative configured expiration, so the defaulting yields a
positive ttl), all three URL-issuance operations return a URL for every key
and filename.  None of them takes the filesystem state as an input at all,
so they cannot consult stored objects, and succeeding they never return the
object-not-found error. -/
theorem url_issuance_ignores_objects (cfg : Config) (fs fs1 : FS)
    (b : Backend) (hnew : New cfg fs = .ok (b, fs1))
    (hexp : 0 ≤ cfg.PresignExpires) (hpfx : b.urlPrefix ≠ "")
    (objectKey downloadFilename : String) (now : Int) :
    (∃ u, b.GetUploadURL objectKey now = .ok u) ∧
    (∃ u, b.GetDownloadURL objectKey downloadFilename = .ok u) ∧
    (∃ u, b.GetPreviewURL objectKey = .ok u) := by
  have hb : b = ⟨cfg.BaseDir, cfg.URLPrefix,
      (if cfg.SignatureSecretKey = "" then none
        else some ⟨cfg.SignatureSecretKey,
          if cfg.PresignExpires = 0 then 3600 else cfg.PresignExpires⟩),
      if cfg.PresignExpires = 0 then 3600 else cfg.PresignExpires⟩ := by
    simp only [New] at hnew
    split at hnew
    · simp at hnew
    · split at hnew
      · simp at hnew
      · simp only [Except.ok.injEq, Prod.mk.injEq] at hnew
        rw [← hnew.1]
  have hpos : (0 : Int) < b.presignExpires := by
    rw [hb]
    by_cases h0 : cfg.PresignExpires = 0
    · simp [h0]
    · simp only [if_neg h0]
      omega
  have hsig : ∀ s, b.signer = some s → s.secretKey ≠ "" := by
    intro s hs
    rw [hb] at hs
    by_cases hsk : cfg.SignatureSecretKey = ""
    · rw [if_pos hsk] at hs; cases hs
    · rw [if_neg hsk] at hs
      injection hs with hs
      rw [← hs]
      exact hsk
  refine ⟨?_, ?_, ?_⟩
  · cases hsm : b.signer with
    | none =>
      exact ⟨b.urlPrefix ++ ("/upload/" ++ objectKey),
        by simp [Backend.GetUploadURL, hpfx, hsm]⟩
    | some s =>
      exact ⟨b.urlPrefix ++ ("/upload/" ++ objectKey) ++ "?signature=" ++
          s.sign "PUT" ("/upload/" ++ objectKey) (now + b.presignExpires) ++
          "&expires=" ++ toString (now + b.presignExpires),
        by simp [Backend.GetUploadURL, hpfx, hsm, Signer.signURLWithBase,
          not_le.mpr hpos, hsig s hsm]⟩
  · by_cases hf : downloadFilename = ""
    · exact ⟨b.urlPrefix ++ "/download/" ++ objectKey,
        by simp [Backend.GetDownloadURL, hpfx, hf]⟩
    · exact ⟨b.urlPrefix ++ "/download/" ++ objectKey ++ "?filename=" ++
          downloadFilename,
        by simp [Backend.GetDownloadURL, hpfx, hf]⟩
  · exact ⟨b.urlPrefix ++ "/preview/" ++ objectKey,
      by simp [Backend.GetPreviewURL, hpfx]⟩

/-- Claim C10 witness: the theorem applied to a concrete signed backend with
a prefix, at a key that has no stored object (the filesystem is empty). -/
theorem url_issuance_ignores_objects_witness :
    New ⟨["w10"], "http://h", "k3y", 60⟩ ⟨[], []⟩ =
      .ok (⟨["w10"], "http://h", some ⟨"k3y", 60⟩, 60⟩, ⟨[], [["w10"]]⟩) ∧
    ((∃ u, (⟨["w10"], "http://h", some ⟨"k3y", 60⟩, 60⟩ : Backend).GetUploadURL
        "absent/key" 500 = .ok u) ∧
     (∃ u, (⟨["w10"], "http://h", some ⟨"k3y", 60⟩, 60⟩ : Backend).GetDownloadURL
        "absent/key" "save.bin" = .ok u) ∧
     (∃ u, (⟨["w10"], "http://h", some ⟨"k3y", 60⟩, 60⟩ : Backend).GetPreviewURL
        "absent/key" = .ok u)) :=
  ⟨by decide,
    url_issuance_ignores_objects ⟨["w10"], "http://h", "k3y", 60⟩ ⟨[], []⟩
      ⟨[], [["w10"]]⟩ ⟨["w10"], "http://h", some ⟨"k3y", 60⟩, 60⟩ (by decide)
      (by decide) (by decide) "absent/key" "save.bin" 500⟩

/-- Claim C1 (refuted — the code lacks any traversal guard):
`filepath.Join(baseDir, key)` lexically resolves `../` segments, so a key
containing them resolves to a path outside the configured base directory,
and the operations succeed on that foreign path instead of failing.  With
base `/data/store`, key `../../etc/passwd` resolves to `/etc/passwd`, not
under the base; `Upload` writes the foreign file, then `Download`,
`GetObjectMeta` and `Delete` read, stat and remove it, all successfully. -/
theorem traversal_key_escapes_base :
    resolveKey ["data", "store"] "../../etc/passwd" = ["etc", "passwd"] ∧
    ¬(["data", "store"] <+: ["etc", "passwd"]) ∧
    (⟨["data", "store"], "", none, 3600⟩ : Backend).Upload "../../etc/passwd" [42]
        ⟨[], [["data"], ["data", "store"]]⟩ =
      .ok ⟨[(["etc", "passwd"], [42])], [["etc"], ["data"], ["data", "store"]]⟩ ∧
    (⟨["data", "store"], "", none, 3600⟩ : Backend).Download "../../etc/passwd"
        ⟨[(["etc", "passwd"], [42])], [["etc"], ["data"], ["data", "store"]]⟩ =
      .ok (.fileData [42]) ∧
    (⟨["data", "store"], "", none, 3600⟩ : Backend).GetObjectMeta "../../etc/passwd"
        ⟨[(["etc", "passwd"], [42])], [["etc"], ["data"], ["data", "store"]]⟩ =
      .ok ⟨"../../etc/passwd", some 1⟩ ∧
    (⟨["data", "store"], "", none, 3600⟩ : Backend).Delete "../../etc/passwd"
        ⟨[(["etc", "passwd"], [42])], [["etc"], ["data"], ["data", "store"]]⟩ =
      .ok ⟨[], [["data"], ["data", "store"]]⟩ := by
  decide

/-- Claim C2 counterexample: at key `""` — which `filepath.Join` resolves to
the base directory itself — `os.Create` fails, so `Upload` errors and the
subsequent `Download` returns a directory handle, never the uploaded
payload: the round-trip property quantified over every key is false. -/
theorem upload_roundtrip_unconditional_false :
    (⟨["data", "store"], "", none, 3600⟩ : Backend).Upload "" [7]
        ⟨[], [["data"], ["data", "store"]]⟩ = .error .createFileFailed ∧
    (⟨["data", "store"], "", none, 3600⟩ : Backend).Download ""
        ⟨[], [["data"], ["data", "store"]]⟩ = .ok .dirHandle ∧
    ¬∃ fs', (⟨["data", "store"], "", none, 3600⟩ : Backend).Upload "" [7]
          ⟨[], [["data"], ["data", "store"]]⟩ = .ok fs' ∧
        (⟨["data", "store"], "", none, 3600⟩ : Backend).Download "" fs' =
          .ok (.fileData [7]) := by
  refine ⟨by decide, by decide, ?_⟩
  rintro ⟨fs', h1, -⟩
  rw [show (⟨["data", "store"], "", none, 3600⟩ : Backend).Upload "" [7]
      ⟨[], [["data"], ["data", "store"]]⟩ = .error .createFileFailed from by decide] at h1
  exact Except.noConfusion h1

/-- Claim C2 (amended): whenever `Upload(k, p)` succeeds — regardless of any
payload previously stored at `k` — the subsequent `Download(k)` yields
exactly `p` (the file holds precisely the new bytes, never a mix) and
`GetObjectMeta(k)` reports size `len(p)`. -/
theorem upload_then_download_roundtrip (b : Backend) (objectKey : String)
    (p : List Nat) (fs fs' : FS) (h : b.Upload objectKey p fs = .ok fs') :
    b.Download objectKey fs' = .ok (.fileData p) ∧
    b.GetObjectMeta objectKey fs' = .ok ⟨objectKey, some p.length⟩ := by
  simp only [Backend.Upload] at h
  split at h
  · simp at h
  next fs1 hmk =>
    split at h
    · simp at h
    next hcond =>
      simp only [Except.ok.injEq] at h
      subst h
      constructor
      · simp only [Backend.Download, lookupFile_setFile_self]
      · simp only [Backend.GetObjectMeta, lookupFile_setFile_self]

/-- Claim C2 witness: the amended theorem applied to an upload overwriting a
previous payload at the same key. -/
theorem upload_then_download_roundtrip_witness :
    (⟨["w2"], "", none, 3600⟩ : Backend).Upload "a/b" [1, 2, 3]
        ⟨[(["w2", "a", "b"], [9])], [["w2", "a"], ["w2"]]⟩ =
      .ok ⟨[(["w2", "a", "b"], [1, 2, 3])], [["w2", "a"], ["w2"]]⟩ ∧
    ((⟨["w2"], "", none, 3600⟩ : Backend).Download "a/b"
        ⟨[(["w2", "a", "b"], [1, 2, 3])], [["w2", "a"], ["w2"]]⟩ =
      .ok (.fileData [1, 2, 3]) ∧
    (⟨["w2"], "", none, 3600⟩ : Backend).GetObjectMeta "a/b"
        ⟨[(["w2", "a", "b"], [1, 2, 3])], [["w2", "a"], ["w2"]]⟩ =
      .ok ⟨"a/b", some 3⟩) :=
  ⟨by decide,
    upload_then_download_roundtrip ⟨["w2"], "", none, 3600⟩ "a/b" [1, 2, 3]
      ⟨[(["w2", "a", "b"], [9])], [["w2", "a"], ["w2"]]⟩
      ⟨[(["w2", "a", "b"], [1, 2, 3])], [["w2", "a"], ["w2"]]⟩ (by decide)⟩

/-- Claim C3: on a well-formed filesystem state, after `Delete(k)` succeeds,
both `Download(k)` and `GetObjectMeta(k)` fail with the object-not-found
error. -/
theorem delete_finality (b : Backend) (objectKey : String) (fs fs' : FS)
    (hwf : fs.WF) (hdel : b.Delete objectKey fs = .ok fs') :
    b.Download objectKey fs' = .error .notFound ∧
    b.GetObjectMeta objectKey fs' = .error .notFound := by
  have key : fs'.lookupFile (resolveKey b.baseDir objectKey) = none ∧
      resolveKey b.baseDir objectKey ∉ fs'.dirs ∧
      resolveKey b.baseDir objectKey ≠ [] := by
    simp only [Backend.Delete] at hdel
    split at hdel
    · simp at hdel
    next hnot =>
      split at hdel
      next c hlook =>
        simp only [Except.ok.injEq] at hdel
        subst hdel
        have hpfile := lookupF_mem hlook
        obtain ⟨hpne, hpnotdir, -⟩ := hwf.1 _ hpfile
        dsimp only at hpne hpnotdir
        refine ⟨?_, ?_, hpne⟩
        · show lookupF _ _ = none
          rw [cleanup_files_eq]
          exact lookupF_filter_ne _ _
        · intro hmem
          have h2 := cleanup_dirs_subset _ _ _ _ hmem
          exact hpnotdir h2
      next hlook =>
        split at hdel
        · simp at hdel
        next hcond =>
          push_neg at hcond
          obtain ⟨hne0, -⟩ := hcond
          simp only [Except.ok.injEq] at hdel
          subst hdel
          refine ⟨?_, ?_, hne0⟩
          · show lookupF _ _ = none
            rw [cleanup_files_eq]
            exact hlook
          · intro hmem
            have hsub := cleanup_dirs_subset _ _ _ _ hmem
            rw [mem_removeDir] at hsub
            exact hsub.2 rfl
  obtain ⟨k1, k2, k3⟩ := key
  exact ⟨download_notFound k1 k2 k3, getObjectMeta_notFound k1 k2 k3⟩

/-- Claim C3 witness: the theorem applied to a concrete deletion. -/
theorem delete_finality_witness :
    (⟨[(["w3", "x"], [5])], [["w3"]]⟩ : FS).WF ∧
    (⟨["w3"], "", none, 3600⟩ : Backend).Delete "x" ⟨[(["w3", "x"], [5])], [["w3"]]⟩ =
      .ok ⟨[], [["w3"]]⟩ ∧
    ((⟨["w3"], "", none, 3600⟩ : Backend).Download "x" ⟨[], [["w3"]]⟩ =
        .error .notFound ∧
    (⟨["w3"], "", none, 3600⟩ : Backend).GetObjectMeta "x" ⟨[], [["w3"]]⟩ =
        .error .notFound) :=
  ⟨by decide, by decide,
    delete_finality ⟨["w3"], "", none, 3600⟩ "x" ⟨[(["w3", "x"], [5])], [["w3"]]⟩
      ⟨[], [["w3"]]⟩ (by decide) (by decide)⟩

/-- Claim C4: on a well-formed state, for every key nested strictly below
the base directory, a successful `Delete` (1) never removes the base
directory, (2) removes each ancestor directory of the deleted entry strictly
between the base and the entry that has become empty — equivalently, every
such ancestor still present afterwards is non-empty — and (3) leaves intact
every ancestor directory that still contains other entries. -/
theorem delete_reclaims_empty_ancestors (b : Backend) (objectKey : String)
    (fs fs' : FS) (hwf : fs.WF)
    (hnest : b.baseDir <+: resolveKey b.baseDir objectKey)
    (hne : resolveKey b.baseDir objectKey ≠ b.baseDir)
    (hdel : b.Delete objectKey fs = .ok fs') :
    (b.baseDir ∈ fs.dirs → b.baseDir ∈ fs'.dirs) ∧
    (∀ d, d <+: resolveKey b.baseDir objectKey →
      d ≠ resolveKey b.baseDir objectKey → b.baseDir <+: d → d ≠ b.baseDir →
      d ∈ fs'.dirs → fs'.HasChild d) ∧
    (∀ d, d <+: resolveKey b.baseDir objectKey →
      d ≠ resolveKey b.baseDir objectKey → d ∈ fs.dirs →
      fs'.HasChild d → d ∈ fs'.dirs) := by
  simp only [Backend.Delete] at hdel
  split at hdel
  · simp at hdel
  next hnot =>
    split at hdel
    next c hlook =>
      simp only [Except.ok.injEq] at hdel
      subst hdel
      have hpfile := lookupF_mem hlook
      obtain ⟨hpne, hpnotdir, hpclos⟩ := hwf.1 _ hpfile
      dsimp only at hpne hpnotdir hpclos
      have hcl : DirClosure (fs.removeFile (resolveKey b.baseDir objectKey)) :=
        fun d hd => hwf.dirClosure d hd
      have hinv : (resolveKey b.baseDir objectKey).dropLast ∈
            (fs.removeFile (resolveKey b.baseDir objectKey)).dirs ∨
          (resolveKey b.baseDir objectKey).dropLast = b.baseDir ∨
          (resolveKey b.baseDir objectKey).dropLast = [] := by
        by_cases hb1 : (resolveKey b.baseDir objectKey).dropLast = b.baseDir
        · exact Or.inr (Or.inl hb1)
        by_cases h01 : (resolveKey b.baseDir objectKey).dropLast = []
        · exact Or.inr (Or.inr h01)
        left
        have hmem : (resolveKey b.baseDir objectKey).dropLast ∈
            pathPrefixes (resolveKey b.baseDir objectKey) :=
          mem_pathPrefixes.mpr ⟨h01, dropLast_prefix_self _⟩
        rcases hpclos _ hmem with heq | hmem2
        · exfalso
          have hlen := congrArg List.length heq
          rw [List.length_dropLast] at hlen
          have hpos : 0 < (resolveKey b.baseDir objectKey).length :=
            List.length_pos.mpr hpne
          omega
        · exact hmem2
      refine ⟨fun hbase => cleanup_keeps_base _ _ _ hbase, ?_, ?_⟩
      · intro d hd1 hd2 hd3 hd4 hd5
        exact cleanup_survivors_nonempty _ _ _ hcl hinv d
          (prefix_dropLast_of_ne hd1 hd2) hd3 hd4 hd5
      · intro d hd1 hd2 hd3 hchild
        exact cleanup_keeps_nonempty _ _ _ d hd3 hchild
    next hlook =>
      split at hdel
      · simp at hdel
      next hcond =>
        push_neg at hcond
        obtain ⟨hne0, hnochild⟩ := hcond
        simp only [Except.ok.injEq] at hdel
        subst hdel
        have hpdirs : resolveKey b.baseDir objectKey ∈ fs.dirs := by
          by_contra hnd
          exact hnot ⟨by rw [hlook]; rfl, hnd, hne0⟩
        have hcl : DirClosure (fs.removeDir (resolveKey b.baseDir objectKey)) :=
          (hwf.dirClosure).removeDir hnochild
        have hdlne : (resolveKey b.baseDir objectKey).dropLast ≠
            resolveKey b.baseDir objectKey := by
          intro hc
          have hlen := congrArg List.length hc
          rw [List.length_dropLast] at hlen
          have hpos : 0 < (resolveKey b.baseDir objectKey).length :=
            List.length_pos.mpr hne0
          omega
        have hinv : (resolveKey b.baseDir objectKey).dropLast ∈
            (fs.removeDir (resolveKey b.baseDir objectKey)).dirs ∨
            (resolveKey b.baseDir objectKey).dropLast = b.baseDir ∨
            (resolveKey b.baseDir objectKey).dropLast = [] := by
          by_cases hb1 : (resolveKey b.baseDir objectKey).dropLast = b.baseDir
          · exact Or.inr (Or.inl hb1)
          by_cases h01 : (resolveKey b.baseDir objectKey).dropLast = []
          · exact Or.inr (Or.inr h01)
          left
          rw [mem_removeDir]
          exact ⟨(hwf.dirClosure _ hpdirs).2 _ (dropLast_prefix_self _) h01 hdlne,
            hdlne⟩
        refine ⟨?_, ?_, ?_⟩
        · intro hbase
          refine cleanup_keeps_base _ _ _ ?_
          rw [mem_removeDir]
          exact ⟨hbase, fun hc => hne hc.symm⟩
        · intro d hd1 hd2 hd3 hd4 hd5
          exact cleanup_survivors_nonempty _ _ _ hcl hinv d
            (prefix_dropLast_of_ne hd1 hd2) hd3 hd4 hd5
        · intro d hd1 hd2 hd3 hchild
          refine cleanup_keeps_nonempty _ _ _ d ?_ hchild
          rw [mem_removeDir]
          exact ⟨hd3, hd2⟩

/-- Claim C4 witness: the theorem applied to the claim's concrete scenario —
keys `a/b/c` and `a/b/d` uploaded, only `a/b/c` deleted: the surviving
ancestor `a/b` is non-empty by the theorem, and indeed still present and
holding `d`, with the base directory untouched. -/
theorem delete_reclaims_empty_ancestors_witness :
    ((⟨[(["s", "a", "b", "d"], [9]), (["s", "a", "b", "c"], [1, 2])],
        [["s", "a", "b"], ["s", "a"], ["s"]]⟩ : FS).WF ∧
      (⟨["s"], "", none, 3600⟩ : Backend).Delete "a/b/c"
          ⟨[(["s", "a", "b", "d"], [9]), (["s", "a", "b", "c"], [1, 2])],
            [["s", "a", "b"], ["s", "a"], ["s"]]⟩ =
        .ok ⟨[(["s", "a", "b", "d"], [9])], [["s", "a", "b"], ["s", "a"], ["s"]]⟩) ∧
    (⟨[(["s", "a", "b", "d"], [9])], [["s", "a", "b"], ["s", "a"], ["s"]]⟩ : FS).HasChild
        ["s", "a", "b"] ∧
    ((["s", "a", "b"] : Path) ∈
        (⟨[(["s", "a", "b", "d"], [9])], [["s", "a", "b"], ["s", "a"], ["s"]]⟩ : FS).dirs ∧
      (⟨[(["s", "a", "b", "d"], [9])], [["s", "a", "b"], ["s", "a"], ["s"]]⟩ : FS).lookupFile
        ["s", "a", "b", "d"] = some [9] ∧
      (["s"] : Path) ∈
        (⟨[(["s", "a", "b", "d"], [9])], [["s", "a", "b"], ["s", "a"], ["s"]]⟩ : FS).dirs) :=
  ⟨⟨by decide, by decide⟩,
    (delete_reclaims_empty_ancestors ⟨["s"], "", none, 3600⟩ "a/b/c"
        ⟨[(["s", "a", "b", "d"], [9]), (["s", "a", "b", "c"], [1, 2])],
          [["s", "a", "b"], ["s", "a"], ["s"]]⟩
        ⟨[(["s", "a", "b", "d"], [9])], [["s", "a", "b"], ["s", "a"], ["s"]]⟩
        (by decide) (by decide) (by decide) (by decide)).2.1
      ["s", "a", "b"] (by decide) (by decide) (by decide) (by decide) (by decide),
    by decide⟩

end SimpleContent
